import Mathlib

/-!
Verification of the retrieval core of the recipe RAG system
(`rag_modules/retrieval_optimization.py`, `rag_modules/data_preparation.py`,
`rag_modules/index_construction.py`, `main.py`).

The Python code is shallowly embedded:
* Python dicts (insertion-ordered, unique keys) are embedded as association
  lists with an update operation that replaces the value in place when the
  key is present and appends otherwise; lookup scans left to right.
* `sorted(xs, key=f, reverse=True)` (a stable descending sort) is embedded as
  `List.insertionSort` with the relation `fun a b => f b ≤ f a`, which is a
  stable descending sort on the same key; stable sorts agree extensionally.
* `uuid.uuid4()` is embedded as a fresh-token supply: module state carries a
  counter and each generated id is the current counter value (ids are opaque
  tokens whose only relevant property is freshness).
* Python exceptions are embedded with `Except`: a method that can raise
  returns `Except PyErr`.
* `id(doc)` (CPython object identity) is embedded as an explicit `pyId`
  field on documents: distinct live objects carry distinct `pyId`s.
-/

namespace RagRecipe

/-- Python exception kinds raised by the embedded code. -/
inductive PyErr where
  | valueError
  | keyError
  | fileNotFound
deriving DecidableEq, Repr

/-! ### Python dict embedding (insertion-ordered association lists) -/

/-- Python `d[k] = v`: replace in place if `k` is already a key, else append. -/
def dictSet {β : Type} : List (Nat × β) → Nat → β → List (Nat × β)
  | [], k, v => [(k, v)]
  | (k', v') :: rest, k, v =>
      if k' = k then (k, v) :: rest else (k', v') :: dictSet rest k v

/-- Python `d.get(k)` / `d[k]` lookup: first (unique) binding of `k`. -/
def dictGet? {β : Type} : List (Nat × β) → Nat → Option β
  | [], _ => none
  | (k', v') :: rest, k => if k' = k then some v' else dictGet? rest k

/-! ### Retrieval optimization module (`retrieval_optimization.py`) -/

/-- A chunk `Document` as seen by the fusion code: `pyId` is the CPython
object identity `id(doc)`, `chunk_id` the stable id stored in metadata. -/
structure RDoc where
  pyId : Nat
  chunk_id : Nat
deriving DecidableEq, Repr

/-- One pass of the RRF scoring loop
(`for rank, doc in enumerate(docs): rrf_scores[id(doc)] = rrf_scores.get(id(doc), 0) + 1/(k+rank+1)`),
with `k = 60`. -/
def scorePass : List (Nat × ℚ) → List RDoc → Nat → List (Nat × ℚ)
  | m, [], _ => m
  | m, d :: ds, rank =>
      scorePass
        (dictSet m d.pyId ((dictGet? m d.pyId).getD 0 + 1 / (60 + (rank : ℚ) + 1)))
        ds (rank + 1)

/-- The full `rrf_scores` dict built by `_rrf_rerank`. -/
def rrfScores (vector_docs bm25_docs : List RDoc) : List (Nat × ℚ) :=
  scorePass (scorePass [] vector_docs 0) bm25_docs 0

/-- The fused score the code assigns to object identity `p`
(`rrf_scores.get(p, 0)`). -/
def codeScore (vector_docs bm25_docs : List RDoc) (p : Nat) : ℚ :=
  (dictGet? (rrfScores vector_docs bm25_docs) p).getD 0

/-- `all_docs = {id(doc): doc for doc in vector_docs + bm25_docs}`. -/
def allDocs : List RDoc → List (Nat × RDoc) → List (Nat × RDoc)
  | [], m => m
  | d :: ds, m => allDocs ds (dictSet m d.pyId d)

/-- `_rrf_rerank`: score both lists, dedup by object identity, stable-sort
descending by fused score, return the documents. -/
def rrf_rerank (vector_docs bm25_docs : List RDoc) : List RDoc :=
  (List.insertionSort
      (fun a b : Nat × RDoc =>
        codeScore vector_docs bm25_docs b.1 ≤ codeScore vector_docs bm25_docs a.1)
      (allDocs (vector_docs ++ bm25_docs) [])).map (fun x => x.2)

/-- Python list slicing `l[:k]` for an arbitrary integer `k`:
`stop = max(0, len(l) + k)` when `k < 0`. -/
def pySliceTo {α : Type} (l : List α) (k : Int) : List α :=
  if 0 ≤ k then l.take k.toNat else l.take ((l.length : Int) + k).toNat

/-- `hybrid_search`: the two retriever calls are external collaborators, so
their result lists are parameters; the body fuses and slices to `top_k`.
The body raises nothing, hence always returns `Except.ok`. -/
def hybrid_search (vector_docs bm25_docs : List RDoc) (top_k : Int) :
    Except PyErr (List RDoc) :=
  Except.ok (pySliceTo (rrf_rerank vector_docs bm25_docs) top_k)

/-! ### Spec-side description of the RRF formula (for claim C1)

Modelled from the spec: each input list contributes `1 / (K + rank + 1)` for
the chunk at 0-based position `rank`, 0 if the chunk is absent from the list;
the fused score is the sum over both lists. -/

/-- Contribution of one ranked list to the chunk with object identity `p`,
starting at rank `rank`: `1 / (60 + rank + 1)` at the first position holding
`p`, `0` if `p` is absent. -/
def specContrib : List RDoc → Nat → Nat → ℚ
  | [], _, _ => 0
  | d :: ds, rank, p =>
      if d.pyId = p then 1 / (60 + (rank : ℚ) + 1) else specContrib ds (rank + 1) p

/-- Spec-side fused score: sum of the two lists' reciprocal-rank
contributions. -/
def specScore (vector_docs bm25_docs : List RDoc) (p : Nat) : ℚ :=
  specContrib vector_docs 0 p + specContrib bm25_docs 0 p

/-- Semantic-list documents of the fusion example (`A`, `B`, `C`, `D` are
four distinct chunk objects shared between the two retriever result lists). -/
def dA : RDoc := ⟨1, 101⟩

/-- Example chunk `B`. -/
def dB : RDoc := ⟨2, 102⟩

/-- Example chunk `C`. -/
def dC : RDoc := ⟨3, 103⟩

/-- Example chunk `D`. -/
def dD : RDoc := ⟨4, 104⟩

/-- Two distinct Python objects (`pyId` 1 and 2) carrying the same stable
`chunk_id` 7, as produced when the vector store and the BM25 retriever
each materialize their own `Document` for the same underlying chunk. -/
def e1 : RDoc := ⟨1, 7⟩

/-- Second object with the same `chunk_id` as `e1`. -/
def e2 : RDoc := ⟨2, 7⟩

/-! ### Data preparation module (`data_preparation.py`)

The file system is embedded as an oracle `FS`; `Path.rglob` on a root that
does not exist yields no entries and raises nothing, which `rglobMd` makes
explicit. Source paths are carried structurally as (path segments, stem)
since `_enhance_metadata` only consumes `Path(...).parts` and
`Path(...).stem`. -/

/-- A markdown file as enumerated by `rglob`: path segments, file stem and
file content. -/
structure MdFile where
  parts : List String
  stem : String
  content : String
deriving DecidableEq, Repr

/-- File-system oracle: which paths exist, and the `*.md` files found by a
recursive glob under a root. -/
structure FS where
  pathExists : String → Bool
  mdFiles : String → List MdFile

/-- `Path(root).rglob("*.md")`: on a nonexistent root the iterator is empty
(pathlib swallows the missing directory); otherwise it yields the files. -/
def rglobMd (fs : FS) (root : String) : List MdFile :=
  if fs.pathExists root then fs.mdFiles root else []

/-- A `langchain` `Document` with the metadata fields this module reads or
writes; absent dict keys are `none`. Ids are opaque fresh tokens. -/
structure Doc where
  content : String
  source_parts : List String := []
  source_stem : String := ""
  parent_id : Option Nat := none
  doc_type : String := ""
  category : Option String := none
  dish_name : Option String := none
  difficulty : Option String := none
  chunk_id : Option Nat := none
  chunk_index : Option Nat := none
  batch_index : Option Nat := none
  chunk_size : Option Nat := none
deriving DecidableEq, Repr

/-- The `DataPreparationModule` instance state: `data_path`, `documents`,
`chunks`, `parent_child_map`, plus the fresh-id counter embedding
`uuid.uuid4()`. -/
structure DPState where
  data_path : String
  documents : List Doc := []
  chunks : List Doc := []
  parent_child_map : List (Nat × Nat) := []
  counter : Nat := 0
deriving DecidableEq, Repr

/-- Is `pat` a leading run of `hay`? (Helper for Python substring `in`.) -/
def matchesAt : List Char → List Char → Bool
  | [], _ => true
  | _ :: _, [] => false
  | a :: as, b :: bs => a == b && matchesAt as bs

/-- Does `pat` occur contiguously in `hay`? -/
def hasSubList : List Char → List Char → Bool
  | [], pat => matchesAt pat []
  | h :: t, pat => matchesAt pat (h :: t) || hasSubList t pat

/-- Python `pat in s` on strings: contiguous substring test. -/
def strContains (s pat : String) : Bool :=
  hasSubList s.data pat.data

/-- The `category_mapping` dict literal, in its insertion order. -/
def category_mapping : List (String × String) :=
  [("meat_dish", "荤菜"), ("vegetable_dish", "素菜"), ("soup", "汤品"),
   ("dessert", "甜品"), ("breakfast", "早餐"), ("staple", "主食"),
   ("aquatic", "水产"), ("condiment", "调料"), ("drink", "饮品")]

/-- The category loop: first mapping key occurring among the path parts
wins; the default set before the loop is `其他`. -/
def findCategory : List (String × String) → List String → String
  | [], _ => "其他"
  | (k, v) :: rest, parts => if k ∈ parts then v else findCategory rest parts

/-- The difficulty scan of `_enhance_metadata`: the `if/elif` chain over
star markers, highest marker first. -/
def difficultyOf (content : String) : String :=
  if strContains content "★★★★★" then "非常困难"
  else if strContains content "★★★★" then "困难"
  else if strContains content "★★★" then "中等"
  else if strContains content "★★" then "简单"
  else if strContains content "★" then "非常简单"
  else "未知"

/-- `_enhance_metadata`: sets `category`, `dish_name` and `difficulty`. -/
def enhanceMetadata (d : Doc) : Doc :=
  { d with
    category := some (findCategory category_mapping d.source_parts),
    dish_name := some d.source_stem,
    difficulty := some (difficultyOf d.content) }

/-- The document-building loop of `load_document`: one parent `Document`
per markdown file, each with a fresh `parent_id`. -/
def buildParentDocs : List MdFile → Nat → List Doc × Nat
  | [], c => ([], c)
  | f :: fs, c =>
      let doc : Doc := { content := f.content, source_parts := f.parts,
                         source_stem := f.stem, parent_id := some c,
                         doc_type := "parent" }
      let (rest, c') := buildParentDocs fs (c + 1)
      (doc :: rest, c')

/-- `load_document`: enumerate markdown files, build parent documents,
enhance metadata, store them; the body raises nothing. -/
def load_document (fs : FS) (st : DPState) : Except PyErr (List Doc × DPState) :=
  let built := buildParentDocs (rglobMd fs st.data_path) st.counter
  let docs := built.1.map enhanceMetadata
  Except.ok (docs, { st with documents := docs, counter := built.2 })

/-- Metadata assembly for one split chunk: `chunk.metadata.update(doc.metadata)`
followed by the chunk-specific overrides (`chunk_id`, `parent_id`,
`doc_type`, `chunk_index`). -/
def mkChild (parent : Doc) (pid : Nat) (content : String) (i cid : Nat) : Doc :=
  { parent with
    content := content, parent_id := some pid, doc_type := "child",
    chunk_id := some cid, chunk_index := some i }

/-- The inner loop of `_markdown_header_split` over one document's split
chunks: assign fresh ids, record `parent_child_map[chunk_id] = parent_id`. -/
def attachChunks (parent : Doc) (pid : Nat) :
    List String → Nat → Nat → List (Nat × Nat) → List Doc × Nat × List (Nat × Nat)
  | [], _, c, m => ([], c, m)
  | s :: rest, i, c, m =>
      let ch := mkChild parent pid s i c
      let m' := dictSet m c pid
      let rec' := attachChunks parent pid rest (i + 1) (c + 1) m'
      (ch :: rec'.1, rec'.2.1, rec'.2.2)

/-- `_markdown_header_split`: the external `MarkdownHeaderTextSplitter` is
a parameter `split`; `doc.metadata["parent_id"]` raises `KeyError` on a
document without the key. -/
def markdownHeaderSplit (split : String → List String) :
    List Doc → Nat → List (Nat × Nat) → Except PyErr (List Doc × Nat × List (Nat × Nat))
  | [], c, m => Except.ok ([], c, m)
  | d :: ds, c, m =>
      match d.parent_id with
      | none => Except.error PyErr.keyError
      | some pid =>
          let att := attachChunks d pid (split d.content) 0 c m
          match markdownHeaderSplit split ds att.2.1 att.2.2 with
          | Except.error e => Except.error e
          | Except.ok (rest, c'', m'') => Except.ok (att.1 ++ rest, c'', m'')

/-- The enumeration loop of `chunk_document`: generate a `chunk_id` only if
missing, set `batch_index` and `chunk_size`. -/
def numberChunks : List Doc → Nat → Nat → List Doc × Nat
  | [], _, c => ([], c)
  | ch :: rest, i, c =>
      match ch.chunk_id with
      | some _ =>
          let ch' := { ch with batch_index := some i,
                               chunk_size := some ch.content.length }
          let r := numberChunks rest (i + 1) c
          (ch' :: r.1, r.2)
      | none =>
          let ch' := { ch with chunk_id := some c, batch_index := some i,
                               chunk_size := some ch.content.length }
          let r := numberChunks rest (i + 1) (c + 1)
          (ch' :: r.1, r.2)

/-- `chunk_document`: raises `ValueError` when no documents are loaded,
else splits, numbers the chunks and replaces `self.chunks`. -/
def chunk_document (split : String → List String) (st : DPState) :
    Except PyErr (List Doc × DPState) :=
  if st.documents.isEmpty then Except.error PyErr.valueError
  else
    match markdownHeaderSplit split st.documents st.counter st.parent_child_map with
    | Except.error e => Except.error e
    | Except.ok (chs, c', m') =>
        let numbered := numberChunks chs 0 c'
        Except.ok (numbered.1,
          { st with chunks := numbered.1, parent_child_map := m',
                    counter := numbered.2 })

/-- The linear scan `for doc in self.documents: if doc.metadata["parent_id"] == parent_id`;
the bracket lookup raises `KeyError` on a document without the key. -/
def findParent : List Doc → Nat → Except PyErr (Option Doc)
  | [], _ => Except.ok none
  | d :: ds, pid =>
      match d.parent_id with
      | none => Except.error PyErr.keyError
      | some q => if q = pid then Except.ok (some d) else findParent ds pid

/-- The chunk loop of `get_parent_document`: count relevance per parent id
and cache the first matching parent document. -/
def gpdLoop (docs : List Doc) :
    List Doc → List (Nat × Nat) → List (Nat × Doc) →
    Except PyErr (List (Nat × Nat) × List (Nat × Doc))
  | [], rel, dmap => Except.ok (rel, dmap)
  | ch :: rest, rel, dmap =>
      match ch.parent_id with
      | none => gpdLoop docs rest rel dmap
      | some pid =>
          let rel' := dictSet rel pid ((dictGet? rel pid).getD 0 + 1)
          match dictGet? dmap pid with
          | some _ => gpdLoop docs rest rel' dmap
          | none =>
              match findParent docs pid with
              | Except.error e => Except.error e
              | Except.ok none => gpdLoop docs rest rel' dmap
              | Except.ok (some d) => gpdLoop docs rest rel' (dictSet dmap pid d)

/-- `get_parent_document`: count, stable-sort the encountered parent ids by
descending relevance, then resolve through the cache; the instance state is
returned unchanged alongside the result. -/
def get_parent_document (st : DPState) (child_chunks : List Doc) :
    Except PyErr (List Doc × DPState) :=
  match gpdLoop st.documents child_chunks [] [] with
  | Except.error e => Except.error e
  | Except.ok (rel, dmap) =>
      let sortedIds := List.insertionSort
        (fun a b : Nat => (dictGet? rel b).getD 0 ≤ (dictGet? rel a).getD 0)
        (rel.map Prod.fst)
      Except.ok (sortedIds.filterMap (fun pid => dictGet? dmap pid), st)

/-- `RecipeRAGSystem.__init__` (`main.py`): raises `FileNotFoundError` when
the configured data path does not exist, then `ValueError` when the API key
environment variable is unset. -/
def recipeRAGSystemInit (fs : FS) (data_path : String) (api_key_set : Bool) :
    Except PyErr Unit :=
  if fs.pathExists data_path = false then Except.error PyErr.fileNotFound
  else if api_key_set = false then Except.error PyErr.valueError
  else Except.ok ()

/-! ### Index construction module (`index_construction.py`)

The FAISS store is an external collaborator; it is embedded by its text
payload. `save_index` is embedded by the list of file-system writes it
performs, so "writes nothing" is expressible. -/

/-- The `IndexConstructionModule` state after `__init__` ran
`setup_embeddings`; `vector_store` is `None` until built or loaded. -/
structure IndexState where
  model_name : String
  index_save_path : String
  embeddings_ready : Bool
  vector_store : Option (List String)
deriving DecidableEq, Repr

/-- `IndexConstructionModule.__init__`: stores the configuration and sets up
embeddings; no vector store exists yet. -/
def initIndexModule (model_name index_save_path : String) : IndexState :=
  { model_name := model_name, index_save_path := index_save_path,
    embeddings_ready := true, vector_store := none }

/-- `build_vector_index`: rejects an empty chunk list, else builds the FAISS
store from the chunk texts and installs it. -/
def build_vector_index (st : IndexState) (chunks : List Doc) :
    Except PyErr (List String × IndexState) :=
  if chunks.isEmpty then Except.error PyErr.valueError
  else
    let texts := chunks.map Doc.content
    Except.ok (texts, { st with vector_store := some texts })

/-- A file-system write performed by `save_index`. -/
inductive FsWrite where
  | mkdirAll (path : String)
  | saveLocal (path : String) (store : List String)
deriving DecidableEq, Repr

/-- `save_index`: raises `ValueError` when no vector store exists (before
any directory is created); otherwise creates the save directory and writes
the store. -/
def save_index (st : IndexState) : Except PyErr (List FsWrite) :=
  match st.vector_store with
  | none => Except.error PyErr.valueError
  | some vs =>
      Except.ok [FsWrite.mkdirAll st.index_save_path,
                 FsWrite.saveLocal st.index_save_path vs]

/-! ### Concrete inputs used by individual claims -/

/-- A file system on which no path exists. -/
def missingFS : FS := ⟨fun _ => false, fun _ => []⟩

/-- A freshly constructed data module over path `data`. -/
def emptyDPState : DPState := { data_path := "data" }

/-- A parent document as produced by loading one markdown file. -/
def parentDocEx : Doc :=
  { content := "# t\nbody", source_parts := ["data", "meat_dish", "t.md"],
    source_stem := "t", parent_id := some 0, doc_type := "parent" }

/-- A splitter that returns the whole content as a single chunk (the
behaviour of `MarkdownHeaderTextSplitter` on heading-free content). -/
def wholeSplit : String → List String := fun s => [s]

/-- Module state after loading one document (fresh-id counter already
advanced past the assigned parent id 0). -/
def loadedState : DPState :=
  { data_path := "data", documents := [parentDocEx], counter := 1 }

/-- The chunk produced by the first chunking pass over `loadedState`. -/
def passOneChunk : Doc :=
  { content := "# t\nbody", source_parts := ["data", "meat_dish", "t.md"],
    source_stem := "t", parent_id := some 0, doc_type := "child",
    chunk_id := some 1, chunk_index := some 0, batch_index := some 0,
    chunk_size := some 8 }

/-- Module state after the first chunking pass over `loadedState`. -/
def passOneState : DPState :=
  { data_path := "data", documents := [parentDocEx], chunks := [passOneChunk],
    parent_child_map := [(1, 0)], counter := 2 }

/-- The chunk produced by the second chunking pass over `loadedState`
(fresh id 2; the pass-one map entry for id 1 is still in the index). -/
def passTwoChunk : Doc :=
  { content := "# t\nbody", source_parts := ["data", "meat_dish", "t.md"],
    source_stem := "t", parent_id := some 0, doc_type := "child",
    chunk_id := some 2, chunk_index := some 0, batch_index := some 0,
    chunk_size := some 8 }

/-- Module state after the second chunking pass. -/
def passTwoState : DPState :=
  { data_path := "data", documents := [parentDocEx], chunks := [passTwoChunk],
    parent_child_map := [(1, 0), (2, 0)], counter := 3 }

/-- Parent document `P1` of the parent-resolution example. -/
def parentP1 : Doc := { content := "P1", parent_id := some 10, doc_type := "parent" }

/-- Parent document `P2` of the parent-resolution example. -/
def parentP2 : Doc := { content := "P2", parent_id := some 20, doc_type := "parent" }

/-- Module state holding the two example parents. -/
def gpdState : DPState :=
  { data_path := "data", documents := [parentP1, parentP2], counter := 21 }

/-- Child chunk `c1` (parent `P1`). -/
def childC1 : Doc :=
  { content := "c1", parent_id := some 10, doc_type := "child", chunk_id := some 30 }

/-- Child chunk `c2` (parent `P2`). -/
def childC2 : Doc :=
  { content := "c2", parent_id := some 20, doc_type := "child", chunk_id := some 31 }

/-- Child chunk `c3` (parent `P1`). -/
def childC3 : Doc :=
  { content := "c3", parent_id := some 10, doc_type := "child", chunk_id := some 32 }

/-- Recipe content carrying both a 3-star and a 5-star difficulty marker. -/
def bothMarkers : String := "预估烹饪难度：★★★；复杂版本：★★★★★"

/-- The five ordered difficulty tiers' star markers, lowest first. -/
def starMarker : Fin 5 → String
  | 0 => "★"
  | 1 => "★★"
  | 2 => "★★★"
  | 3 => "★★★★"
  | 4 => "★★★★★"

/-- The label the code assigns to each difficulty tier. -/
def tierName : Fin 5 → String
  | 0 => "非常简单"
  | 1 => "简单"
  | 2 => "中等"
  | 3 => "困难"
  | 4 => "非常困难"

/-! ### Spec-side descriptions used by data-preparation claims -/

/-- Modelled from the spec: relevance count of parent id `p` = number of
input chunks whose `parent_id` equals `p`. -/
def relCount : List Doc → Nat → Nat
  | [], _ => 0
  | c :: cs, p => (if c.parent_id = some p then 1 else 0) + relCount cs p

/-- Relevance count keyed by a document's own `parent_id` metadata. -/
def docRelCount (cs : List Doc) (d : Doc) : Nat :=
  match d.parent_id with
  | some p => relCount cs p
  | none => 0

/-- Modelled from the spec: the distinct parent ids referenced by the input
chunks, in the order they are first encountered. -/
def encounterOrder : List Doc → List Nat → List Nat
  | [], acc => acc
  | c :: cs, acc =>
      match c.parent_id with
      | none => encounterOrder cs acc
      | some pid => encounterOrder cs (if pid ∈ acc then acc else acc ++ [pid])

/-! ## Association-list (Python dict) lemmas -/

theorem dictGet?_dictSet {β : Type} (m : List (Nat × β)) (k : Nat) (v : β) (p : Nat) :
    dictGet? (dictSet m k v) p = if p = k then some v else dictGet? m p := by
  induction m with
  | nil =>
    by_cases h : p = k
    · subst h; simp [dictSet, dictGet?]
    · simp [dictSet, dictGet?, h, Ne.symm h]
  | cons hd tl ih =>
    obtain ⟨k', v'⟩ := hd
    by_cases hk : k' = k
    · subst hk
      by_cases h : p = k'
      · subst h; simp [dictSet, dictGet?]
      · simp [dictSet, dictGet?, h, Ne.symm h]
    · by_cases h : p = k'
      · subst h
        simp [dictSet, dictGet?, hk, Ne.symm hk]
      · simp [dictSet, dictGet?, hk, h, Ne.symm h, ih]

theorem mem_dictSet {β : Type} (m : List (Nat × β)) (k : Nat) (v : β) (x : Nat × β)
    (hx : x ∈ dictSet m k v) : x ∈ m ∨ x = (k, v) := by
  induction m with
  | nil => simp [dictSet] at hx; simp [hx]
  | cons hd tl ih =>
    obtain ⟨k', v'⟩ := hd
    by_cases hk : k' = k
    · subst hk
      simp [dictSet] at hx
      rcases hx with h | h
      · right; simp [h]
      · left; simp [h]
    · simp [dictSet, hk] at hx
      rcases hx with h | h
      · left; simp [h]
      · rcases ih h with h' | h'
        · left; simp [h']
        · right; exact h'

theorem keys_dictSet {β : Type} (m : List (Nat × β)) (k : Nat) (v : β) (p : Nat) :
    p ∈ (dictSet m k v).map Prod.fst ↔ p ∈ m.map Prod.fst ∨ p = k := by
  induction m with
  | nil => simp [dictSet]
  | cons hd tl ih =>
    obtain ⟨k', v'⟩ := hd
    by_cases hk : k' = k
    · subst hk; simp [dictSet]; tauto
    · simp [dictSet, hk, ih]; tauto

theorem keys_dictSet_nodup {β : Type} (m : List (Nat × β)) (k : Nat) (v : β)
    (h : (m.map Prod.fst).Nodup) : ((dictSet m k v).map Prod.fst).Nodup := by
  induction m with
  | nil => simp [dictSet]
  | cons hd tl ih =>
    obtain ⟨k', v'⟩ := hd
    simp only [List.map_cons, List.nodup_cons] at h
    by_cases hk : k' = k
    · subst hk
      have hset : dictSet ((k', v') :: tl) k' v = (k', v) :: tl := by simp [dictSet]
      rw [hset]
      simp only [List.map_cons, List.nodup_cons]
      exact ⟨h.1, h.2⟩
    · simp only [dictSet, hk, if_false, List.map_cons, List.nodup_cons]
      refine ⟨fun hmem => ?_, ih h.2⟩
      rw [keys_dictSet] at hmem
      rcases hmem with hmem | hmem
      · exact h.1 hmem
      · exact hk hmem

/-! ## RRF fusion lemmas (claims C1, C2, C7) -/

theorem specContrib_of_not_mem (ds : List RDoc) (p : Nat) (h : p ∉ ds.map RDoc.pyId) :
    ∀ rank, specContrib ds rank p = 0 := by
  induction ds with
  | nil => intro rank; simp [specContrib]
  | cons d tl ih =>
    intro rank
    simp only [List.map_cons, List.mem_cons] at h
    push_neg at h
    rw [specContrib, if_neg (fun h' : d.pyId = p => h.1 h'.symm), ih h.2 (rank + 1)]

theorem scorePass_get_of_not_mem (ds : List RDoc) (p : Nat) (h : p ∉ ds.map RDoc.pyId) :
    ∀ m rank, dictGet? (scorePass m ds rank) p = dictGet? m p := by
  induction ds with
  | nil => intro m rank; simp [scorePass]
  | cons d tl ih =>
    intro m rank
    simp only [List.map_cons, List.mem_cons] at h
    push_neg at h
    rw [scorePass, ih h.2, dictGet?_dictSet, if_neg h.1]

theorem scorePass_getD (ds : List RDoc) (p : Nat) :
    ∀ m rank, (ds.map RDoc.pyId).Nodup →
      (dictGet? (scorePass m ds rank) p).getD 0 =
        (dictGet? m p).getD 0 + specContrib ds rank p := by
  induction ds with
  | nil => intro m rank _; simp [scorePass, specContrib]
  | cons d tl ih =>
    intro m rank hnd
    simp only [List.map_cons, List.nodup_cons] at hnd
    rw [scorePass, ih _ _ hnd.2]
    by_cases h : d.pyId = p
    · subst h
      rw [specContrib_of_not_mem tl d.pyId hnd.1]
      rw [dictGet?_dictSet, if_pos rfl]
      simp [specContrib]
    · rw [dictGet?_dictSet, if_neg (fun h' : p = d.pyId => h h'.symm)]
      simp [specContrib, h]

theorem codeScore_eq_specScore (vd bd : List RDoc)
    (h1 : (vd.map RDoc.pyId).Nodup) (h2 : (bd.map RDoc.pyId).Nodup) (p : Nat) :
    codeScore vd bd p = specScore vd bd p := by
  rw [codeScore, rrfScores, scorePass_getD bd p _ _ h2, scorePass_getD vd p _ _ h1,
    specScore]
  simp [dictGet?]

theorem allDocs_inv (l : List RDoc) :
    ∀ m, (∀ x ∈ m, (x : Nat × RDoc).2.pyId = x.1) →
      ∀ x ∈ allDocs l m, x.2.pyId = x.1 := by
  induction l with
  | nil => intro m hm x hx; exact hm x hx
  | cons d ds ih =>
    intro m hm x hx
    refine ih _ ?_ x hx
    intro y hy
    rcases mem_dictSet _ _ _ _ hy with h | h
    · exact hm y h
    · simp [h]

theorem allDocs_keys_mem (l : List RDoc) :
    ∀ m p, p ∈ (allDocs l m).map Prod.fst ↔
      p ∈ m.map Prod.fst ∨ p ∈ l.map RDoc.pyId := by
  induction l with
  | nil => intro m p; simp [allDocs]
  | cons d ds ih =>
    intro m p
    rw [allDocs, ih, keys_dictSet]
    simp; tauto

theorem allDocs_keys_nodup (l : List RDoc) :
    ∀ m, ((m : List (Nat × RDoc)).map Prod.fst).Nodup →
      ((allDocs l m).map Prod.fst).Nodup := by
  induction l with
  | nil => intro m hm; exact hm
  | cons d ds ih => intro m hm; exact ih _ (keys_dictSet_nodup _ _ _ hm)

theorem rrf_rerank_sorted (vd bd : List RDoc) :
    (rrf_rerank vd bd).Pairwise
      (fun d e => codeScore vd bd e.pyId ≤ codeScore vd bd d.pyId) := by
  rw [rrf_rerank, List.pairwise_map]
  have hinv : ∀ x ∈ allDocs (vd ++ bd) [], (x : Nat × RDoc).2.pyId = x.1 :=
    allDocs_inv _ [] (by simp)
  haveI htot : IsTotal (Nat × RDoc)
      (fun a b => codeScore vd bd b.1 ≤ codeScore vd bd a.1) :=
    ⟨fun a b => le_total _ _⟩
  haveI htr : IsTrans (Nat × RDoc)
      (fun a b => codeScore vd bd b.1 ≤ codeScore vd bd a.1) :=
    ⟨fun _ _ _ h1 h2 => le_trans h2 h1⟩
  have hs := List.sorted_insertionSort
    (fun a b : Nat × RDoc => codeScore vd bd b.1 ≤ codeScore vd bd a.1)
    (allDocs (vd ++ bd) [])
  refine List.Pairwise.imp_of_mem ?_ hs
  intro a b ha hb hab
  rw [List.mem_insertionSort] at ha hb
  rw [hinv a ha, hinv b hb]
  exact hab

theorem rrf_rerank_mem (vd bd : List RDoc) (p : Nat) :
    p ∈ (rrf_rerank vd bd).map RDoc.pyId ↔
      p ∈ vd.map RDoc.pyId ∨ p ∈ bd.map RDoc.pyId := by
  have hinv : ∀ x ∈ allDocs (vd ++ bd) [], (x : Nat × RDoc).2.pyId = x.1 :=
    allDocs_inv _ [] (by simp)
  rw [rrf_rerank, List.map_map]
  constructor
  · intro h
    obtain ⟨x, hx, hpx⟩ := List.mem_map.mp h
    rw [List.mem_insertionSort] at hx
    have := hinv x hx
    have hk : p ∈ (allDocs (vd ++ bd) []).map Prod.fst := by
      refine List.mem_map.mpr ⟨x, hx, ?_⟩
      simp at hpx
      rw [← this, hpx]
    rw [allDocs_keys_mem] at hk
    simpa [List.map_append] using hk
  · intro h
    have hk : p ∈ (allDocs (vd ++ bd) []).map Prod.fst := by
      rw [allDocs_keys_mem]
      simpa [List.map_append] using h
    obtain ⟨x, hx, hpx⟩ := List.mem_map.mp hk
    refine List.mem_map.mpr ⟨x, (List.mem_insertionSort _).mpr hx, ?_⟩
    simp
    rw [hinv x hx, hpx]

theorem rrf_rerank_ids_nodup (vd bd : List RDoc) :
    ((rrf_rerank vd bd).map RDoc.pyId).Nodup := by
  have hinv : ∀ x ∈ allDocs (vd ++ bd) [], (x : Nat × RDoc).2.pyId = x.1 :=
    allDocs_inv _ [] (by simp)
  have hperm : List.Perm
      (List.insertionSort
        (fun a b : Nat × RDoc => codeScore vd bd b.1 ≤ codeScore vd bd a.1)
        (allDocs (vd ++ bd) []))
      (allDocs (vd ++ bd) []) :=
    List.perm_insertionSort _ _
  rw [rrf_rerank, List.map_map]
  have h1 : List.Perm
      ((List.insertionSort
        (fun a b : Nat × RDoc => codeScore vd bd b.1 ≤ codeScore vd bd a.1)
        (allDocs (vd ++ bd) [])).map (RDoc.pyId ∘ fun x => x.2))
      ((allDocs (vd ++ bd) []).map (RDoc.pyId ∘ fun x => x.2)) := hperm.map _
  refine h1.nodup_iff.mpr ?_
  have h2 : ((allDocs (vd ++ bd) []).map (RDoc.pyId ∘ fun x => x.2)) =
      (allDocs (vd ++ bd) []).map Prod.fst := by
    refine List.map_congr_left ?_
    intro x hx
    exact hinv x hx
  rw [h2]
  exact allDocs_keys_nodup _ [] (by simp)

/-- C1 counterexample: chunk `D` sits at 0-based rank 2 of the lexical list,
so the code assigns it `1/(60+2+1) = 1/63`, not the claimed `1/64`. -/
theorem rrf_example_d_score_counterexample :
    codeScore [dA, dB, dC] [dB, dC, dD] dD.pyId = 1 / 63 ∧ (1 / 63 : ℚ) ≠ 1 / 64 := by
  constructor
  · norm_num [codeScore, rrfScores, scorePass, dictSet, dictGet?, dA, dB, dC, dD]
  · norm_num

/-- C1 (amended): with `K = 60`, every chunk's fused score is the sum over
both input lists of `1/(K + rank + 1)` at its 0-based rank (0 if absent),
the output is the deduplicated union sorted by descending fused score, and
on the example lists `[A,B,C]` / `[B,C,D]` the scores are `A: 1/61`,
`B: 1/61+1/62`, `C: 1/62+1/63`, `D: 1/63` with output order `B, C, A, D`. -/
theorem rrf_fusion_formula_and_example :
    (∀ vd bd : List RDoc, (vd.map RDoc.pyId).Nodup → (bd.map RDoc.pyId).Nodup →
      (∀ p : Nat, codeScore vd bd p = specScore vd bd p) ∧
      (rrf_rerank vd bd).Pairwise
        (fun d e => specScore vd bd e.pyId ≤ specScore vd bd d.pyId) ∧
      ((rrf_rerank vd bd).map RDoc.pyId).Nodup ∧
      (∀ p : Nat, p ∈ (rrf_rerank vd bd).map RDoc.pyId ↔
        p ∈ vd.map RDoc.pyId ∨ p ∈ bd.map RDoc.pyId)) ∧
    rrf_rerank [dA, dB, dC] [dB, dC, dD] = [dB, dC, dA, dD] ∧
    codeScore [dA, dB, dC] [dB, dC, dD] dA.pyId = 1 / 61 ∧
    codeScore [dA, dB, dC] [dB, dC, dD] dB.pyId = 1 / 61 + 1 / 62 ∧
    codeScore [dA, dB, dC] [dB, dC, dD] dC.pyId = 1 / 62 + 1 / 63 ∧
    codeScore [dA, dB, dC] [dB, dC, dD] dD.pyId = 1 / 63 := by
  constructor
  · intro vd bd h1 h2
    refine ⟨codeScore_eq_specScore vd bd h1 h2, ?_,
      rrf_rerank_ids_nodup vd bd, rrf_rerank_mem vd bd⟩
    refine (rrf_rerank_sorted vd bd).imp ?_
    intro d e h
    rw [← codeScore_eq_specScore vd bd h1 h2, ← codeScore_eq_specScore vd bd h1 h2]
    exact h
  · refine ⟨?_, ?_, ?_, ?_, ?_⟩ <;>
      norm_num [rrf_rerank, codeScore, rrfScores, scorePass, allDocs, dictSet,
        dictGet?, List.insertionSort, List.orderedInsert, dA, dB, dC, dD]

/-- Witness for C1: the universal part applied to the concrete example
lists, whose id projections are duplicate-free. -/
theorem rrf_fusion_formula_and_example_witness :
    (([dA, dB, dC].map RDoc.pyId).Nodup ∧ ([dB, dC, dD].map RDoc.pyId).Nodup) ∧
    ((rrf_rerank [dA, dB, dC] [dB, dC, dD]).map RDoc.pyId).Nodup :=
  ⟨⟨by decide, by decide⟩,
    (rrf_fusion_formula_and_example.1 [dA, dB, dC] [dB, dC, dD]
      (by decide) (by decide)).2.2.1⟩

/-- C2: the code keys fused scores on `id(doc)`. Two retriever entries that
carry the same stable `chunk_id` 7 but are distinct objects are kept as two
separate chunks: they appear twice in the output and each keeps its own
un-merged score `1/61` instead of being fused into one chunk. -/
theorem rrf_keys_on_object_identity :
    e1.chunk_id = e2.chunk_id ∧ e1.pyId ≠ e2.pyId ∧
    rrf_rerank [e1] [e2] = [e1, e2] ∧
    (rrf_rerank [e1] [e2]).map RDoc.chunk_id = [7, 7] ∧
    codeScore [e1] [e2] e1.pyId = 1 / 61 ∧
    codeScore [e1] [e2] e2.pyId = 1 / 61 := by
  refine ⟨rfl, by decide, ?_, ?_, ?_, ?_⟩ <;>
    norm_num [rrf_rerank, codeScore, rrfScores, scorePass, allDocs, dictSet,
      dictGet?, List.insertionSort, List.orderedInsert, e1, e2]

/-- C7 counterexample: `hybrid_search` with `top_k = 0` returns the empty
result list instead of raising an `InvalidArgument` error. -/
theorem hybrid_search_topk_zero_counterexample :
    hybrid_search [dA] [] 0 = Except.ok [] := rfl

/-- C7 (amended): `hybrid_search` performs no validation of `top_k`; for
every non-positive `top_k` it returns normally with the Python slice
`reranked[:top_k]` — a prefix of the fused ranking that is empty when
`top_k = 0`. -/
theorem hybrid_search_nonpositive_topk (vd bd : List RDoc) (k : Int) (hk : k ≤ 0) :
    ∃ l, hybrid_search vd bd k = Except.ok l ∧
      l <+: rrf_rerank vd bd ∧ (k = 0 → l = []) := by
  refine ⟨pySliceTo (rrf_rerank vd bd) k, rfl, ?_, ?_⟩
  · rw [pySliceTo]
    split <;> exact List.take_prefix _ _
  · intro h
    subst h
    simp [pySliceTo]

/-- Witness for C7 at `top_k = -1`. -/
theorem hybrid_search_nonpositive_topk_witness :
    ((-1 : Int) ≤ 0) ∧
    ∃ l, hybrid_search [dA] [] (-1) = Except.ok l ∧
      l <+: rrf_rerank [dA] [] ∧ ((-1 : Int) = 0 → l = []) :=
  ⟨by decide, hybrid_search_nonpositive_topk [dA] [] (-1) (by decide)⟩

/-! ## Document loading (claim C3) -/

/-- C3 counterexample: on a file system where the configured root `data`
does not exist, `load_document` raises nothing and returns the empty
document list (pathlib's `rglob` on a missing root yields no entries). -/
theorem load_document_missing_root_counterexample :
    missingFS.pathExists emptyDPState.data_path = false ∧
    load_document missingFS emptyDPState = Except.ok ([], emptyDPState) := by
  constructor
  · rfl
  · rfl

/-- C3 (amended): the `NotFound` guard lives in the system constructor:
`RecipeRAGSystem.__init__` raises `FileNotFoundError` when the configured
data path does not exist, while `load_document` itself performs no
existence check and returns an empty document set for a missing root. -/
theorem notfound_guard_in_constructor (fs : FS) (path : String) (key : Bool)
    (h : fs.pathExists path = false) :
    recipeRAGSystemInit fs path key = Except.error PyErr.fileNotFound ∧
    ∀ st : DPState, st.data_path = path →
      load_document fs st = Except.ok ([], { st with documents := [] }) := by
  constructor
  · rw [recipeRAGSystemInit, if_pos h]
  · intro st hst
    rw [load_document, rglobMd, hst, h]
    simp [buildParentDocs]

/-- Witness for C3 on the concrete missing-path file system. -/
theorem notfound_guard_in_constructor_witness :
    missingFS.pathExists "data" = false ∧
    recipeRAGSystemInit missingFS "data" true = Except.error PyErr.fileNotFound ∧
    load_document missingFS emptyDPState =
      Except.ok ([], { emptyDPState with documents := [] }) :=
  ⟨rfl, (notfound_guard_in_constructor missingFS "data" true rfl).1,
    (notfound_guard_in_constructor missingFS "data" true rfl).2 emptyDPState rfl⟩

/-! ## Difficulty tiers (claim C8) -/

/-- C8: `_enhance_metadata` assigns the highest of the five ordered star
tiers whose marker occurs in the content, `未知` (unknown) when no marker
occurs; content holding both a 3-star and a 5-star marker lands on the
5-star tier `非常困难`. -/
theorem difficulty_highest_tier :
    (∀ (content : String) (k : Fin 5),
      strContains content (starMarker k) = true →
      (∀ j : Fin 5, k < j → strContains content (starMarker j) = false) →
      difficultyOf content = tierName k) ∧
    (∀ content : String,
      (∀ j : Fin 5, strContains content (starMarker j) = false) →
      difficultyOf content = "未知") ∧
    strContains bothMarkers (starMarker 2) = true ∧
    strContains bothMarkers (starMarker 4) = true ∧
    difficultyOf bothMarkers = "非常困难" := by
  refine ⟨?_, ?_, by decide, by decide, by decide⟩
  · intro content k h1 h2
    fin_cases k
    · have m2 := h2 1 (by decide)
      have m3 := h2 2 (by decide)
      have m4 := h2 3 (by decide)
      have m5 := h2 4 (by decide)
      simp only [starMarker] at h1 m2 m3 m4 m5
      simp [difficultyOf, tierName, h1, m2, m3, m4, m5]
    · have m3 := h2 2 (by decide)
      have m4 := h2 3 (by decide)
      have m5 := h2 4 (by decide)
      simp only [starMarker] at h1 m3 m4 m5
      simp [difficultyOf, tierName, h1, m3, m4, m5]
    · have m4 := h2 3 (by decide)
      have m5 := h2 4 (by decide)
      simp only [starMarker] at h1 m4 m5
      simp [difficultyOf, tierName, h1, m4, m5]
    · have m5 := h2 4 (by decide)
      simp only [starMarker] at h1 m5
      simp [difficultyOf, tierName, h1, m5]
    · simp only [starMarker] at h1
      simp [difficultyOf, tierName, h1]
  · intro content h
    have m1 := h 0
    have m2 := h 1
    have m3 := h 2
    have m4 := h 3
    have m5 := h 4
    simp only [starMarker] at m1 m2 m3 m4 m5
    simp [difficultyOf, m1, m2, m3, m4, m5]

/-- Witness for C8: the universal parts applied to the concrete contents
`bothMarkers` (for tier 4) and `"abc"` (no marker). -/
theorem difficulty_highest_tier_witness :
    (strContains bothMarkers (starMarker 4) = true ∧
      difficultyOf bothMarkers = tierName 4) ∧
    difficultyOf "abc" = "未知" :=
  ⟨⟨by decide,
      difficulty_highest_tier.1 bothMarkers 4 (by decide) (by decide)⟩,
    difficulty_highest_tier.2.1 "abc" (by decide)⟩

/-! ## Index persistence (claim C10) -/

/-- C10: `save_index` raises `ValueError` (performing no file-system write)
whenever no vector store exists — in particular on a freshly initialized
module — and succeeds exactly when a vector store exists. -/
theorem save_index_requires_store :
    (∀ st : IndexState, st.vector_store = none →
      save_index st = Except.error PyErr.valueError) ∧
    (∀ mn p : String, (initIndexModule mn p).vector_store = none) ∧
    (∀ st : IndexState, (∃ w, save_index st = Except.ok w) ↔
      st.vector_store ≠ none) := by
  refine ⟨?_, ?_, ?_⟩
  · intro st h
    rw [save_index, h]
  · intro mn p
    rfl
  · intro st
    constructor
    · rintro ⟨w, hw⟩ hnone
      rw [save_index, hnone] at hw
      exact absurd hw (by simp)
    · intro h
      match hst : st.vector_store with
      | none => exact absurd hst h
      | some vs => exact ⟨_, by rw [save_index, hst]⟩

/-- Witness for C10 on a freshly initialized index module. -/
theorem save_index_requires_store_witness :
    (initIndexModule "BAAI/bge-small-en-v1.5" "./vector_index").vector_store = none ∧
    save_index (initIndexModule "BAAI/bge-small-en-v1.5" "./vector_index") =
      Except.error PyErr.valueError :=
  ⟨rfl, save_index_requires_store.1
    (initIndexModule "BAAI/bge-small-en-v1.5" "./vector_index") rfl⟩

/-! ## Chunking (claims C4, C6) -/

theorem dictSet_append_of_lt {β : Type} (m : List (Nat × β)) (k : Nat) (v : β)
    (h : ∀ kv ∈ m, (kv : Nat × β).1 < k) : dictSet m k v = m ++ [(k, v)] := by
  induction m with
  | nil => rfl
  | cons hd tl ih =>
    obtain ⟨k', v'⟩ := hd
    have hk : k' ≠ k := Nat.ne_of_lt (h (k', v') (by simp))
    rw [dictSet, if_neg hk]
    rw [ih (fun kv hkv => h kv (by simp [hkv]))]
    simp

theorem attachChunks_spec (parent : Doc) (pid : Nat) :
    ∀ (raws : List String) (i c : Nat) (m : List (Nat × Nat)),
      (∀ kv ∈ m, (kv : Nat × Nat).1 < c) →
      (attachChunks parent pid raws i c m).2.1 = c + raws.length ∧
      (attachChunks parent pid raws i c m).1.length = raws.length ∧
      (∃ ext, (attachChunks parent pid raws i c m).2.2 = m ++ ext ∧
        ext.length = raws.length) ∧
      (∀ kv ∈ (attachChunks parent pid raws i c m).2.2,
        (kv : Nat × Nat).1 < c + raws.length) ∧
      (∀ p, p < c →
        dictGet? (attachChunks parent pid raws i c m).2.2 p = dictGet? m p) ∧
      (∀ ch ∈ (attachChunks parent pid raws i c m).1,
        ch.parent_id = some pid ∧ ch.doc_type = "child" ∧
        ∃ cid, ch.chunk_id = some cid ∧ c ≤ cid ∧ cid < c + raws.length ∧
          dictGet? (attachChunks parent pid raws i c m).2.2 cid = some pid) := by
  intro raws
  induction raws with
  | nil =>
    intro i c m hm
    refine ⟨by simp [attachChunks], by simp [attachChunks], ⟨[], by simp [attachChunks], rfl⟩,
      ?_, ?_, ?_⟩
    · intro kv hkv
      simpa using hm kv (by simpa [attachChunks] using hkv)
    · intro p hp; simp [attachChunks]
    · intro ch hch; simp [attachChunks] at hch
  | cons s rest ih =>
    intro i c m hm
    have hm' : ∀ kv ∈ dictSet m c pid, (kv : Nat × Nat).1 < c + 1 := by
      intro kv hkv
      rcases mem_dictSet _ _ _ _ hkv with h | h
      · exact Nat.lt_succ_of_lt (hm kv h)
      · simp [h]
    obtain ⟨ha, hb, ⟨ext', hext', hlen'⟩, hd, he, hf⟩ :=
      ih (i + 1) (c + 1) (dictSet m c pid) hm'
    have hunfold : attachChunks parent pid (s :: rest) i c m =
        (mkChild parent pid s i c ::
          (attachChunks parent pid rest (i + 1) (c + 1) (dictSet m c pid)).1,
         (attachChunks parent pid rest (i + 1) (c + 1) (dictSet m c pid)).2.1,
         (attachChunks parent pid rest (i + 1) (c + 1) (dictSet m c pid)).2.2) := rfl
    rw [hunfold]
    refine ⟨by simpa [Nat.add_comm, Nat.add_assoc, Nat.add_left_comm] using ha,
      by simp [hb], ?_, ?_, ?_, ?_⟩
    · refine ⟨(c, pid) :: ext', ?_, by simp [hlen']⟩
      rw [hext', dictSet_append_of_lt m c pid hm]
      simp
    · intro kv hkv
      have := hd kv hkv
      simp only [List.length_cons]
      omega
    · intro p hp
      rw [he p (Nat.lt_succ_of_lt hp), dictGet?_dictSet,
        if_neg (Nat.ne_of_lt hp)]
    · intro ch hch
      rcases List.mem_cons.mp hch with h | h
      · subst h
        refine ⟨rfl, rfl, c, rfl, le_refl c, by simp, ?_⟩
        rw [he c (Nat.lt_succ_self c), dictGet?_dictSet, if_pos rfl]
      · obtain ⟨hp, hdt, cid, hcid, hle, hlt, hget⟩ := hf ch h
        exact ⟨hp, hdt, cid, hcid, by omega, by simp; omega, hget⟩



theorem markdownHeaderSplit_spec (split : String → List String) :
    ∀ (docs : List Doc) (c : Nat) (m : List (Nat × Nat)),
      (∀ d ∈ docs, (d : Doc).parent_id.isSome) →
      (∀ kv ∈ m, (kv : Nat × Nat).1 < c) →
      ∃ chs c' m', markdownHeaderSplit split docs c m = Except.ok (chs, c', m') ∧
        c ≤ c' ∧
        (∃ ext, m' = m ++ ext ∧ ext.length = chs.length) ∧
        (∀ kv ∈ m', (kv : Nat × Nat).1 < c') ∧
        (∀ p, p < c → dictGet? m' p = dictGet? m p) ∧
        (∀ ch ∈ chs, ch.chunk_id.isSome ∧
          ∃ cid pd, ch.chunk_id = some cid ∧ ch.parent_id = some pd ∧
            dictGet? m' cid = some pd ∧ pd ∈ docs.filterMap Doc.parent_id) := by
  intro docs
  induction docs with
  | nil =>
    intro c m _ hm
    exact ⟨[], c, m, rfl, le_refl c, ⟨[], by simp, rfl⟩, hm, fun p _ => rfl,
      by simp⟩
  | cons d ds ih =>
    intro c m hdocs hm
    obtain ⟨pid, hpid⟩ := Option.isSome_iff_exists.mp (hdocs d (by simp))
    obtain ⟨hac, hal, ⟨extA, hextA, hlenA⟩, hak, hae, haf⟩ :=
      attachChunks_spec d pid (split d.content) 0 c m hm
    have hak' : ∀ kv ∈ (attachChunks d pid (split d.content) 0 c m).2.2,
        (kv : Nat × Nat).1 < (attachChunks d pid (split d.content) 0 c m).2.1 := by
      rw [hac]; exact hak
    obtain ⟨chsT, c', m', heqT, hcT, ⟨extT, hextT, hlenT⟩, hkT, heT, hfT⟩ :=
      ih (attachChunks d pid (split d.content) 0 c m).2.1
        (attachChunks d pid (split d.content) 0 c m).2.2
        (fun x hx => hdocs x (by simp [hx])) hak'
    refine ⟨(attachChunks d pid (split d.content) 0 c m).1 ++ chsT, c', m', ?_,
      ?_, ?_, hkT, ?_, ?_⟩
    · simp only [markdownHeaderSplit, hpid, heqT]
    · rw [hac] at hcT
      omega
    · refine ⟨extA ++ extT, ?_, ?_⟩
      · rw [hextT, hextA, List.append_assoc]
      · simp [hlenA, hlenT, hal]
    · intro p hp
      rw [hac] at heT
      rw [heT p (by omega), hae p hp]
    · intro ch hch
      rcases List.mem_append.mp hch with h | h
      · obtain ⟨hp, _, cid, hcid, hle, hlt, hget⟩ := haf ch h
        rw [hac] at heT
        refine ⟨by simp [hcid], cid, pid, hcid, hp, ?_, ?_⟩
        · rw [heT cid (by omega), hget]
        · simp [List.filterMap_cons, hpid]
      · obtain ⟨hs, cid, pd, hcid, hp, hget, hmem⟩ := hfT ch h
        refine ⟨hs, cid, pd, hcid, hp, hget, ?_⟩
        simp [List.filterMap_cons, hpid]
        right
        simpa using hmem

theorem numberChunks_spec :
    ∀ (chs : List Doc) (i c : Nat), (∀ ch ∈ chs, (ch : Doc).chunk_id.isSome) →
      (numberChunks chs i c).2 = c ∧
      (numberChunks chs i c).1.length = chs.length ∧
      (∀ ch' ∈ (numberChunks chs i c).1, ∃ ch, ch ∈ chs ∧
        ch'.chunk_id = ch.chunk_id ∧ ch'.parent_id = ch.parent_id) := by
  intro chs
  induction chs with
  | nil => intro i c _; exact ⟨rfl, rfl, by simp [numberChunks]⟩
  | cons ch rest ih =>
    intro i c hall
    obtain ⟨cid, hcid⟩ := Option.isSome_iff_exists.mp (hall ch (by simp))
    obtain ⟨h1, h2, h3⟩ := ih (i + 1) c (fun x hx => hall x (by simp [hx]))
    have hunfold : numberChunks (ch :: rest) i c =
        ({ ch with batch_index := some i, chunk_size := some ch.content.length } ::
          (numberChunks rest (i + 1) c).1, (numberChunks rest (i + 1) c).2) := by
      rw [numberChunks, hcid]
    rw [hunfold]
    refine ⟨h1, by simp [h2], ?_⟩
    intro ch' hch'
    rcases List.mem_cons.mp hch' with h | h
    · exact ⟨ch, by simp, by simp [h], by simp [h]⟩
    · obtain ⟨x, hx, hcx, hpx⟩ := h3 ch' h
      exact ⟨x, by simp [hx], hcx, hpx⟩



theorem chunk_document_spec (split : String → List String) (st : DPState)
    (hne : st.documents ≠ [])
    (hpid : ∀ d ∈ st.documents, (d : Doc).parent_id.isSome)
    (hkeys : ∀ kv ∈ st.parent_child_map, (kv : Nat × Nat).1 < st.counter) :
    ∃ chs st', chunk_document split st = Except.ok (chs, st') ∧
      st'.chunks = chs ∧ st'.documents = st.documents ∧
      st'.data_path = st.data_path ∧ st.counter ≤ st'.counter ∧
      (∃ ext, st'.parent_child_map = st.parent_child_map ++ ext ∧
        ext.length = chs.length) ∧
      (∀ kv ∈ st'.parent_child_map, (kv : Nat × Nat).1 < st'.counter) ∧
      (∀ ch ∈ chs, ∃ cid pd, ch.chunk_id = some cid ∧ ch.parent_id = some pd ∧
        dictGet? st'.parent_child_map cid = some pd ∧
        pd ∈ st.documents.filterMap Doc.parent_id) := by
  obtain ⟨chs0, c', m', heq0, hc0, ⟨ext0, hext0, hlen0⟩, hk0, he0, hf0⟩ :=
    markdownHeaderSplit_spec split st.documents st.counter st.parent_child_map
      hpid hkeys
  obtain ⟨hn1, hn2, hn3⟩ :=
    numberChunks_spec chs0 0 c' (fun ch hch => (hf0 ch hch).1)
  refine ⟨(numberChunks chs0 0 c').1,
    { st with chunks := (numberChunks chs0 0 c').1, parent_child_map := m',
              counter := (numberChunks chs0 0 c').2 }, ?_, rfl, rfl, rfl, ?_,
    ?_, ?_, ?_⟩
  · rw [chunk_document, if_neg (by simp [hne]), heq0]
  · simp only [hn1]
    omega
  · exact ⟨ext0, hext0, by rw [hlen0, hn2]⟩
  · intro kv hkv
    simp only [hn1]
    exact hk0 kv hkv
  · intro ch' hch'
    obtain ⟨ch, hch, hcid, hpd⟩ := hn3 ch' hch'
    obtain ⟨_, cid, pd, hc, hp, hget, hmem⟩ := hf0 ch hch
    exact ⟨cid, pd, by rw [hcid, hc], by rw [hpd, hp], hget, hmem⟩

/-- C6: after a completed chunking pass, every produced chunk `c` has a
`parent_child_map` entry at its `chunk_id` equal to its `parent_id`
metadata, and that `parent_id` belongs to some loaded parent document. -/
theorem parent_linkage_total (split : String → List String) (st : DPState)
    (hne : st.documents ≠ [])
    (hpid : ∀ d ∈ st.documents, (d : Doc).parent_id.isSome)
    (hkeys : ∀ kv ∈ st.parent_child_map, (kv : Nat × Nat).1 < st.counter) :
    ∀ chs st', chunk_document split st = Except.ok (chs, st') →
      ∀ ch ∈ chs, ∃ cid pd, ch.chunk_id = some cid ∧ ch.parent_id = some pd ∧
        dictGet? st'.parent_child_map cid = some pd ∧
        pd ∈ st.documents.filterMap Doc.parent_id := by
  intro chs st' heq ch hch
  obtain ⟨chs0, st0, heq0, _, _, _, _, _, _, hf⟩ :=
    chunk_document_spec split st hne hpid hkeys
  rw [heq0] at heq
  obtain ⟨h1, h2⟩ : chs0 = chs ∧ st0 = st' := by
    have := Except.ok.inj heq
    exact ⟨congrArg Prod.fst this, congrArg Prod.snd this⟩
  subst h1
  subst h2
  exact hf ch hch



/-- C4 counterexample: running `chunk_document` twice over one loaded
document (whole-content splitter) leaves a second pass of 1 chunk but a
`parent_child_map` of 2 entries `[(1,0),(2,0)]` — the pass-one entry is
not overwritten, so the index does not hold exactly one entry per
second-pass chunk. -/
theorem chunk_document_rerun_counterexample :
    ((chunk_document wholeSplit loadedState).bind
        (fun r => chunk_document wholeSplit r.2)).map
      (fun r => (r.1.length, r.2.parent_child_map)) =
      Except.ok (1, [(1, 0), (2, 0)]) ∧ (2 : Nat) ≠ 1 := ⟨rfl, by decide⟩

/-- C4 (amended): re-invoking `chunk_document` replaces the stored chunk
list with the chunks of the latest pass, but the parent-child index
accumulates: the map after the second call is the map after the first call
extended with exactly one fresh entry per second-pass chunk (first-pass
entries are retained, since chunk ids are freshly generated each pass). -/
theorem chunk_document_rerun_accumulates (split : String → List String) (st : DPState)
    (hne : st.documents ≠ [])
    (hpid : ∀ d ∈ st.documents, (d : Doc).parent_id.isSome)
    (hkeys : ∀ kv ∈ st.parent_child_map, (kv : Nat × Nat).1 < st.counter) :
    ∀ ch1 st1 ch2 st2,
      chunk_document split st = Except.ok (ch1, st1) →
      chunk_document split st1 = Except.ok (ch2, st2) →
      st1.chunks = ch1 ∧ st2.chunks = ch2 ∧
      ∃ ext, st2.parent_child_map = st1.parent_child_map ++ ext ∧
        ext.length = ch2.length := by
  intro ch1 st1 ch2 st2 heq1 heq2
  obtain ⟨chsA, stA, heqA, hAchunks, hAdocs, _, _, _, hAkeys, _⟩ :=
    chunk_document_spec split st hne hpid hkeys
  rw [heqA] at heq1
  obtain ⟨h1, h2⟩ : chsA = ch1 ∧ stA = st1 := by
    have := Except.ok.inj heq1
    exact ⟨congrArg Prod.fst this, congrArg Prod.snd this⟩
  subst h1
  subst h2
  obtain ⟨chsB, stB, heqB, hBchunks, _, _, _, ⟨ext, hext, hlen⟩, _, _⟩ :=
    chunk_document_spec split stA (by rw [hAdocs]; exact hne)
      (by rw [hAdocs]; exact hpid) hAkeys
  rw [heqB] at heq2
  obtain ⟨h1, h2⟩ : chsB = ch2 ∧ stB = st2 := by
    have := Except.ok.inj heq2
    exact ⟨congrArg Prod.fst this, congrArg Prod.snd this⟩
  subst h1
  subst h2
  exact ⟨hAchunks, hBchunks, ext, hext, hlen⟩

/-- Witness for C4 on the concrete one-document state and its two passes. -/
theorem chunk_document_rerun_accumulates_witness :
    (loadedState.documents ≠ [] ∧
      (∀ d ∈ loadedState.documents, (d : Doc).parent_id.isSome) ∧
      (∀ kv ∈ loadedState.parent_child_map, (kv : Nat × Nat).1 < loadedState.counter) ∧
      chunk_document wholeSplit loadedState = Except.ok ([passOneChunk], passOneState) ∧
      chunk_document wholeSplit passOneState = Except.ok ([passTwoChunk], passTwoState)) ∧
    (passOneState.chunks = [passOneChunk] ∧ passTwoState.chunks = [passTwoChunk] ∧
      ∃ ext, passTwoState.parent_child_map = passOneState.parent_child_map ++ ext ∧
        ext.length = [passTwoChunk].length) :=
  ⟨⟨by decide, by decide, by decide, rfl, rfl⟩,
    chunk_document_rerun_accumulates wholeSplit loadedState (by decide) (by decide) (by decide)
      [passOneChunk] passOneState [passTwoChunk] passTwoState rfl rfl⟩

/-- Witness for C6 on the concrete one-document state and its first pass. -/
theorem parent_linkage_total_witness :
    (loadedState.documents ≠ [] ∧
      (∀ d ∈ loadedState.documents, (d : Doc).parent_id.isSome) ∧
      (∀ kv ∈ loadedState.parent_child_map, (kv : Nat × Nat).1 < loadedState.counter) ∧
      chunk_document wholeSplit loadedState = Except.ok ([passOneChunk], passOneState)) ∧
    (∀ ch ∈ [passOneChunk], ∃ cid pd, ch.chunk_id = some cid ∧
      ch.parent_id = some pd ∧
      dictGet? passOneState.parent_child_map cid = some pd ∧
      pd ∈ loadedState.documents.filterMap Doc.parent_id) :=
  ⟨⟨by decide, by decide, by decide, rfl⟩,
    parent_linkage_total wholeSplit loadedState (by decide) (by decide) (by decide)
      [passOneChunk] passOneState rfl⟩

/-! ## Parent resolution (claims C5, C9) -/

theorem dictGet?_mem {β : Type} (m : List (Nat × β)) (k : Nat) (v : β)
    (h : dictGet? m k = some v) : (k, v) ∈ m := by
  induction m with
  | nil => simp [dictGet?] at h
  | cons hd tl ih =>
    obtain ⟨k', v'⟩ := hd
    by_cases hk : k' = k
    · subst hk
      rw [dictGet?, if_pos rfl] at h
      simp [Option.some.inj h]
    · rw [dictGet?, if_neg hk] at h
      simp [ih h]

theorem keys_dictSet_eq {β : Type} (m : List (Nat × β)) (k : Nat) (v : β) :
    (dictSet m k v).map Prod.fst =
      if k ∈ m.map Prod.fst then m.map Prod.fst else m.map Prod.fst ++ [k] := by
  induction m with
  | nil => simp [dictSet]
  | cons hd tl ih =>
    obtain ⟨k', v'⟩ := hd
    by_cases hk : k' = k
    · subst hk
      simp [dictSet]
    · rw [dictSet, if_neg hk]
      by_cases hmem : k ∈ tl.map Prod.fst
      · simp [ih, hmem, hk, Ne.symm hk]
      · simp [ih, hmem, hk, Ne.symm hk]

theorem findParent_mem (docs : List Doc) (pid : Nat) (d : Doc)
    (h : findParent docs pid = Except.ok (some d)) :
    d ∈ docs ∧ d.parent_id = some pid := by
  induction docs with
  | nil => simp [findParent] at h
  | cons x xs ih =>
    cases hx : x.parent_id with
    | none => simp only [findParent, hx] at h; exact absurd h (by simp)
    | some q =>
      simp only [findParent, hx] at h
      by_cases hq : q = pid
      · rw [if_pos hq] at h
        have := Except.ok.inj h
        have hd : x = d := Option.some.inj this
        subst hd
        subst hq
        exact ⟨by simp, hx⟩
      · rw [if_neg hq] at h
        obtain ⟨h1, h2⟩ := ih h
        exact ⟨by simp [h1], h2⟩

theorem findParent_none (docs : List Doc) (pid : Nat)
    (h : findParent docs pid = Except.ok none) :
    ∀ d ∈ docs, (d : Doc).parent_id ≠ some pid := by
  induction docs with
  | nil => simp
  | cons x xs ih =>
    cases hx : x.parent_id with
    | none => simp only [findParent, hx] at h; exact absurd h (by simp)
    | some q =>
      simp only [findParent, hx] at h
      by_cases hq : q = pid
      · rw [if_pos hq] at h
        simp at h
      · rw [if_neg hq] at h
        intro d hd
        rcases List.mem_cons.mp hd with h' | h'
        · subst h'
          rw [hx]
          exact fun hc => hq (Option.some.inj hc)
        · exact ih h d h'

theorem encounterOrder_mem (cs : List Doc) :
    ∀ acc p, p ∈ encounterOrder cs acc ↔
      p ∈ acc ∨ ∃ c ∈ cs, (c : Doc).parent_id = some p := by
  induction cs with
  | nil => intro acc p; simp [encounterOrder]
  | cons c rest ih =>
    intro acc p
    rw [encounterOrder]
    cases hc : c.parent_id with
    | none =>
      rw [ih]
      constructor
      · rintro (h | h)
        · exact Or.inl h
        · exact Or.inr (by obtain ⟨x, hx, hxp⟩ := h; exact ⟨x, by simp [hx], hxp⟩)
      · rintro (h | ⟨x, hx, hxp⟩)
        · exact Or.inl h
        · rcases List.mem_cons.mp hx with h' | h'
          · subst h'; rw [hc] at hxp; simp at hxp
          · exact Or.inr ⟨x, h', hxp⟩
    | some pid =>
      rw [ih]
      by_cases hmem : pid ∈ acc
      · rw [if_pos hmem]
        constructor
        · rintro (h | ⟨x, hx, hxp⟩)
          · exact Or.inl h
          · exact Or.inr ⟨x, by simp [hx], hxp⟩
        · rintro (h | ⟨x, hx, hxp⟩)
          · exact Or.inl h
          · rcases List.mem_cons.mp hx with h' | h'
            · subst h'
              rw [hc] at hxp
              exact Or.inl (Option.some.inj hxp ▸ hmem)
            · exact Or.inr ⟨x, h', hxp⟩
      · rw [if_neg hmem]
        constructor
        · rintro (h | ⟨x, hx, hxp⟩)
          · rcases List.mem_append.mp h with h' | h'
            · exact Or.inl h'
            · simp at h'
              subst h'
              exact Or.inr ⟨c, by simp, hc⟩
          · exact Or.inr ⟨x, by simp [hx], hxp⟩
        · rintro (h | ⟨x, hx, hxp⟩)
          · exact Or.inl (List.mem_append.mpr (Or.inl h))
          · rcases List.mem_cons.mp hx with h' | h'
            · subst h'
              rw [hc] at hxp
              have := Option.some.inj hxp
              subst this
              exact Or.inl (List.mem_append.mpr (Or.inr (by simp)))
            · exact Or.inr ⟨x, h', hxp⟩

theorem encounterOrder_nodup (cs : List Doc) :
    ∀ acc, acc.Nodup → (encounterOrder cs acc).Nodup := by
  induction cs with
  | nil => intro acc h; exact h
  | cons c rest ih =>
    intro acc h
    cases hc : c.parent_id with
    | none => simp only [encounterOrder, hc]; exact ih acc h
    | some pid =>
      simp only [encounterOrder, hc]
      by_cases hmem : pid ∈ acc
      · rw [if_pos hmem]; exact ih acc h
      · rw [if_neg hmem]
        refine ih _ ?_
        simp [List.nodup_append, h, hmem]

theorem relCount_pos_iff (cs : List Doc) (p : Nat) :
    relCount cs p ≠ 0 ↔ ∃ c ∈ cs, (c : Doc).parent_id = some p := by
  induction cs with
  | nil => simp [relCount]
  | cons c rest ih =>
    rw [relCount]
    by_cases hc : c.parent_id = some p
    · simp [hc]
    · simp only [hc, if_false]
      rw [Nat.zero_add, ih]
      constructor
      · rintro ⟨x, hx, hxp⟩
        exact ⟨x, by simp [hx], hxp⟩
      · rintro ⟨x, hx, hxp⟩
        rcases List.mem_cons.mp hx with h' | h'
        · subst h'; exact absurd hxp hc
        · exact ⟨x, h', hxp⟩



theorem gpdLoop_rel_getD (docs : List Doc) :
    ∀ (cs : List Doc) (rel : List (Nat × Nat)) (dmap : List (Nat × Doc))
      (rel' : List (Nat × Nat)) (dmap' : List (Nat × Doc)),
      gpdLoop docs cs rel dmap = Except.ok (rel', dmap') →
      ∀ p, (dictGet? rel' p).getD 0 = (dictGet? rel p).getD 0 + relCount cs p := by
  intro cs
  induction cs with
  | nil =>
    intro rel dmap rel' dmap' h p
    simp only [gpdLoop] at h
    have := Except.ok.inj h
    have h1 : rel = rel' := congrArg Prod.fst this
    subst h1
    simp [relCount]
  | cons ch rest ih =>
    intro rel dmap rel' dmap' h p
    cases hcp : ch.parent_id with
    | none =>
      simp only [gpdLoop, hcp] at h
      rw [ih rel dmap rel' dmap' h p, relCount,
        if_neg (by rw [hcp]; exact fun hc => Option.noConfusion hc)]
      omega
    | some pid =>
      simp only [gpdLoop, hcp] at h
      have hmain : (dictGet? rel' p).getD 0 =
          (dictGet? (dictSet rel pid ((dictGet? rel pid).getD 0 + 1)) p).getD 0 +
            relCount rest p := by
        cases hdm : dictGet? dmap pid with
        | some d0 =>
          rw [hdm] at h
          exact ih _ _ _ _ h p
        | none =>
          rw [hdm] at h
          cases hfp : findParent docs pid with
          | error e => rw [hfp] at h; exact absurd h (by simp)
          | ok od =>
            rw [hfp] at h
            cases od with
            | none => exact ih _ _ _ _ h p
            | some d => exact ih _ _ _ _ h p
      rw [hmain, dictGet?_dictSet]
      by_cases hp : p = pid
      · subst hp
        rw [if_pos rfl]
        simp only [Option.getD_some]
        rw [relCount, if_pos (by rw [hcp])]
        omega
      · rw [if_neg hp]
        rw [relCount, if_neg (by rw [hcp]; exact fun hc => hp (Option.some.inj hc).symm)]
        omega



theorem gpdLoop_keys (docs : List Doc) :
    ∀ (cs : List Doc) (rel : List (Nat × Nat)) (dmap : List (Nat × Doc))
      (rel' : List (Nat × Nat)) (dmap' : List (Nat × Doc)),
      gpdLoop docs cs rel dmap = Except.ok (rel', dmap') →
      rel'.map Prod.fst = encounterOrder cs (rel.map Prod.fst) := by
  intro cs
  induction cs with
  | nil =>
    intro rel dmap rel' dmap' h
    simp only [gpdLoop] at h
    have := Except.ok.inj h
    have h1 : rel = rel' := congrArg Prod.fst this
    subst h1
    rfl
  | cons ch rest ih =>
    intro rel dmap rel' dmap' h
    cases hcp : ch.parent_id with
    | none =>
      simp only [gpdLoop, hcp] at h
      simp only [encounterOrder, hcp]
      exact ih _ _ _ _ h
    | some pid =>
      simp only [gpdLoop, hcp] at h
      simp only [encounterOrder, hcp]
      have hstep : (dictSet rel pid ((dictGet? rel pid).getD 0 + 1)).map Prod.fst =
          if pid ∈ rel.map Prod.fst then rel.map Prod.fst
          else rel.map Prod.fst ++ [pid] := keys_dictSet_eq rel pid _
      have hrec : rel'.map Prod.fst =
          encounterOrder rest
            ((dictSet rel pid ((dictGet? rel pid).getD 0 + 1)).map Prod.fst) := by
        cases hdm : dictGet? dmap pid with
        | some d0 =>
          rw [hdm] at h
          exact ih _ _ _ _ h
        | none =>
          rw [hdm] at h
          cases hfp : findParent docs pid with
          | error e => rw [hfp] at h; exact absurd h (by simp)
          | ok od =>
            rw [hfp] at h
            cases od with
            | none => exact ih _ _ _ _ h
            | some d => exact ih _ _ _ _ h
      rw [hrec, hstep]

theorem gpdLoop_dmap_mono (docs : List Doc) :
    ∀ (cs : List Doc) (rel : List (Nat × Nat)) (dmap : List (Nat × Doc))
      (rel' : List (Nat × Nat)) (dmap' : List (Nat × Doc)),
      gpdLoop docs cs rel dmap = Except.ok (rel', dmap') →
      ∀ p d, dictGet? dmap p = some d → dictGet? dmap' p = some d := by
  intro cs
  induction cs with
  | nil =>
    intro rel dmap rel' dmap' h p d hd
    simp only [gpdLoop] at h
    have := Except.ok.inj h
    have h2 : dmap = dmap' := congrArg Prod.snd this
    subst h2
    exact hd
  | cons ch rest ih =>
    intro rel dmap rel' dmap' h p d hd
    cases hcp : ch.parent_id with
    | none =>
      simp only [gpdLoop, hcp] at h
      exact ih _ _ _ _ h p d hd
    | some pid =>
      simp only [gpdLoop, hcp] at h
      cases hdm : dictGet? dmap pid with
      | some d0 =>
        rw [hdm] at h
        exact ih _ _ _ _ h p d hd
      | none =>
        rw [hdm] at h
        cases hfp : findParent docs pid with
        | error e => rw [hfp] at h; exact absurd h (by simp)
        | ok od =>
          rw [hfp] at h
          cases od with
          | none => exact ih _ _ _ _ h p d hd
          | some dnew =>
            refine ih _ _ _ _ h p d ?_
            rw [dictGet?_dictSet]
            by_cases hp : p = pid
            · subst hp
              rw [hdm] at hd
              exact absurd hd (by simp)
            · rw [if_neg hp]
              exact hd

theorem gpdLoop_dmap_inv (docs : List Doc) :
    ∀ (cs : List Doc) (rel : List (Nat × Nat)) (dmap : List (Nat × Doc))
      (rel' : List (Nat × Nat)) (dmap' : List (Nat × Doc)),
      (∀ kv ∈ dmap, (kv : Nat × Doc).2 ∈ docs ∧ kv.2.parent_id = some kv.1) →
      gpdLoop docs cs rel dmap = Except.ok (rel', dmap') →
      ∀ kv ∈ dmap', (kv : Nat × Doc).2 ∈ docs ∧ kv.2.parent_id = some kv.1 := by
  intro cs
  induction cs with
  | nil =>
    intro rel dmap rel' dmap' hinv h
    simp only [gpdLoop] at h
    have := Except.ok.inj h
    have h2 : dmap = dmap' := congrArg Prod.snd this
    subst h2
    exact hinv
  | cons ch rest ih =>
    intro rel dmap rel' dmap' hinv h
    cases hcp : ch.parent_id with
    | none =>
      simp only [gpdLoop, hcp] at h
      exact ih _ _ _ _ hinv h
    | some pid =>
      simp only [gpdLoop, hcp] at h
      cases hdm : dictGet? dmap pid with
      | some d0 =>
        rw [hdm] at h
        exact ih _ _ _ _ hinv h
      | none =>
        rw [hdm] at h
        cases hfp : findParent docs pid with
        | error e => rw [hfp] at h; exact absurd h (by simp)
        | ok od =>
          rw [hfp] at h
          cases od with
          | none => exact ih _ _ _ _ hinv h
          | some dnew =>
            refine ih _ _ _ _ ?_ h
            intro kv hkv
            rcases mem_dictSet _ _ _ _ hkv with h' | h'
            · exact hinv kv h'
            · obtain ⟨h1, h2⟩ := findParent_mem docs pid dnew hfp
              subst h'
              exact ⟨h1, h2⟩

theorem gpdLoop_dmap_find (docs : List Doc) :
    ∀ (cs : List Doc) (rel : List (Nat × Nat)) (dmap : List (Nat × Doc))
      (rel' : List (Nat × Nat)) (dmap' : List (Nat × Doc)),
      gpdLoop docs cs rel dmap = Except.ok (rel', dmap') →
      ∀ p, (∃ ch ∈ cs, (ch : Doc).parent_id = some p) →
        (∃ d ∈ docs, (d : Doc).parent_id = some p) →
        ∃ d, dictGet? dmap' p = some d := by
  intro cs
  induction cs with
  | nil =>
    intro rel dmap rel' dmap' h p href _
    simp at href
  | cons ch rest ih =>
    intro rel dmap rel' dmap' h p href hdoc
    cases hcp : ch.parent_id with
    | none =>
      simp only [gpdLoop, hcp] at h
      obtain ⟨x, hx, hxp⟩ := href
      rcases List.mem_cons.mp hx with h' | h'
      · subst h'; rw [hcp] at hxp; exact absurd hxp (by simp)
      · exact ih _ _ _ _ h p ⟨x, h', hxp⟩ hdoc
    | some pid =>
      simp only [gpdLoop, hcp] at h
      by_cases hp : p = pid
      · subst hp
        cases hdm : dictGet? dmap p with
        | some d0 =>
          rw [hdm] at h
          exact ⟨d0, gpdLoop_dmap_mono docs rest _ _ _ _ h p d0 hdm⟩
        | none =>
          rw [hdm] at h
          cases hfp : findParent docs p with
          | error e => rw [hfp] at h; exact absurd h (by simp)
          | ok od =>
            rw [hfp] at h
            cases od with
            | none =>
              obtain ⟨d, hd, hdp⟩ := hdoc
              exact absurd hdp (findParent_none docs p hfp d hd)
            | some dnew =>
              refine ⟨dnew, gpdLoop_dmap_mono docs rest _ _ _ _ h p dnew ?_⟩
              rw [dictGet?_dictSet, if_pos rfl]
      · have href' : ∃ x ∈ rest, (x : Doc).parent_id = some p := by
          obtain ⟨x, hx, hxp⟩ := href
          rcases List.mem_cons.mp hx with h' | h'
          · subst h'
            rw [hcp] at hxp
            exact absurd (Option.some.inj hxp).symm hp
          · exact ⟨x, h', hxp⟩
        cases hdm : dictGet? dmap pid with
        | some d0 =>
          rw [hdm] at h
          exact ih _ _ _ _ h p href' hdoc
        | none =>
          rw [hdm] at h
          cases hfp : findParent docs pid with
          | error e => rw [hfp] at h; exact absurd h (by simp)
          | ok od =>
            rw [hfp] at h
            cases od with
            | none => exact ih _ _ _ _ h p href' hdoc
            | some dnew => exact ih _ _ _ _ h p href' hdoc



theorem filterMap_resolve_nodup (f : Nat → Option Doc) :
    ∀ ids : List Nat, ids.Nodup →
      (∀ p x, f p = some x → (x : Doc).parent_id = some p) →
      ((ids.filterMap f).map Doc.parent_id).Nodup := by
  intro ids
  induction ids with
  | nil => intro _ _; simp
  | cons pid rest ih =>
    intro hnd hres
    simp only [List.nodup_cons] at hnd
    cases hf : f pid with
    | none =>
      simp only [List.filterMap_cons, hf]
      exact ih hnd.2 hres
    | some d =>
      simp only [List.filterMap_cons, hf, List.map_cons, List.nodup_cons]
      refine ⟨?_, ih hnd.2 hres⟩
      intro hmem
      obtain ⟨y, hy, hyp⟩ := List.mem_map.mp hmem
      obtain ⟨q, hq, hfq⟩ := List.mem_filterMap.mp hy
      have h1 := hres pid d hf
      have h2 := hres q y hfq
      rw [h2, h1] at hyp
      exact hnd.1 ((Option.some.inj hyp) ▸ hq)

theorem gpd_example :
    get_parent_document gpdState [childC1, childC2, childC3] =
      Except.ok ([parentP1, parentP2], gpdState) := rfl

/-- C9: `get_parent_document` is read-only — whenever it returns, the
module state it hands back has the same `documents`, `chunks`,
`parent_child_map` and `data_path` as the input state. -/
theorem get_parent_document_readonly (st : DPState) (cs : List Doc) :
    ∀ out st', get_parent_document st cs = Except.ok (out, st') →
      st'.documents = st.documents ∧ st'.chunks = st.chunks ∧
      st'.parent_child_map = st.parent_child_map ∧
      st'.data_path = st.data_path := by
  intro out st' heq
  cases hg : gpdLoop st.documents cs [] [] with
  | error e =>
    simp only [get_parent_document, hg] at heq
    exact absurd heq (by simp)
  | ok r =>
    obtain ⟨rel, dmap⟩ := r
    simp only [get_parent_document, hg] at heq
    have hst : st = st' := congrArg Prod.snd (Except.ok.inj heq)
    subst hst
    exact ⟨rfl, rfl, rfl, rfl⟩



/-- C5: `get_parent_document` returns the distinct referenced (and
resolvable) parent documents sorted by descending relevance count — the
number of input chunks whose `parent_id` matches — with ties kept in
first-encounter order of the input sequence; on the example
`[c1(P1), c2(P2), c3(P1)]` it returns `[P1, P2]`. -/
theorem get_parent_documents_ranking :
    (∀ (st : DPState) (cs : List Doc) (out : List Doc) (st' : DPState),
      get_parent_document st cs = Except.ok (out, st') →
      out.Pairwise (fun d e => docRelCount cs e ≤ docRelCount cs d) ∧
      (out.map Doc.parent_id).Nodup ∧
      (∀ d ∈ out, d ∈ st.documents ∧
        ∃ p, (d : Doc).parent_id = some p ∧ relCount cs p ≠ 0) ∧
      (∀ p : Nat, (∃ ch ∈ cs, (ch : Doc).parent_id = some p) →
        (∃ dd ∈ st.documents, (dd : Doc).parent_id = some p) →
        ∃ d ∈ out, (d : Doc).parent_id = some p) ∧
      (∀ p q : Nat, [p, q].Sublist (encounterOrder cs []) →
        relCount cs q ≤ relCount cs p →
        (∃ dd ∈ st.documents, (dd : Doc).parent_id = some p) →
        (∃ dd ∈ st.documents, (dd : Doc).parent_id = some q) →
        ∃ dp dq : Doc, dp.parent_id = some p ∧ dq.parent_id = some q ∧
          [dp, dq].Sublist out)) ∧
    get_parent_document gpdState [childC1, childC2, childC3] =
      Except.ok ([parentP1, parentP2], gpdState) := by
  constructor
  · intro st cs out st' heq
    cases hg : gpdLoop st.documents cs [] [] with
    | error e =>
      simp only [get_parent_document, hg] at heq
      exact absurd heq (by simp)
    | ok r =>
      obtain ⟨rel, dmap⟩ := r
      simp only [get_parent_document, hg] at heq
      have hout : (List.insertionSort
          (fun a b : Nat => (dictGet? rel b).getD 0 ≤ (dictGet? rel a).getD 0)
          (rel.map Prod.fst)).filterMap (fun pid => dictGet? dmap pid) = out :=
        congrArg Prod.fst (Except.ok.inj heq)
      have hrelcount : ∀ p, (dictGet? rel p).getD 0 = relCount cs p := by
        intro p
        have := gpdLoop_rel_getD st.documents cs [] [] rel dmap hg p
        simpa [dictGet?] using this
      have hkeys : rel.map Prod.fst = encounterOrder cs [] := by
        simpa using gpdLoop_keys st.documents cs [] [] rel dmap hg
      have hinv : ∀ kv ∈ dmap, (kv : Nat × Doc).2 ∈ st.documents ∧
          kv.2.parent_id = some kv.1 :=
        gpdLoop_dmap_inv st.documents cs [] [] rel dmap (by simp) hg
      have hres : ∀ p x, dictGet? dmap p = some x →
          (x : Doc).parent_id = some p ∧ x ∈ st.documents := by
        intro p x hx
        obtain ⟨h1, h2⟩ := hinv (p, x) (dictGet?_mem dmap p x hx)
        exact ⟨h2, h1⟩
      haveI htot : IsTotal Nat
          (fun a b : Nat => (dictGet? rel b).getD 0 ≤ (dictGet? rel a).getD 0) :=
        ⟨fun a b => le_total _ _⟩
      haveI htr : IsTrans Nat
          (fun a b : Nat => (dictGet? rel b).getD 0 ≤ (dictGet? rel a).getD 0) :=
        ⟨fun _ _ _ h1 h2 => le_trans h2 h1⟩
      have hsorted := List.sorted_insertionSort
        (fun a b : Nat => (dictGet? rel b).getD 0 ≤ (dictGet? rel a).getD 0)
        (rel.map Prod.fst)
      have hnodupkeys : (rel.map Prod.fst).Nodup := by
        rw [hkeys]
        exact encounterOrder_nodup cs [] (by simp)
      refine ⟨?_, ?_, ?_, ?_, ?_⟩
      · rw [← hout]
        refine List.Pairwise.filterMap _ ?_ hsorted
        intro a b hab x hx y hy
        rw [Option.mem_def] at hx hy
        have hxa := (hres a x hx).1
        have hyb := (hres b y hy).1
        show docRelCount cs y ≤ docRelCount cs x
        rw [docRelCount, docRelCount, hxa, hyb]
        rw [hrelcount a, hrelcount b] at hab
        exact hab
      · rw [← hout]
        refine filterMap_resolve_nodup _ _ ?_ ?_
        · exact ((List.perm_insertionSort _ _).nodup_iff).mpr hnodupkeys
        · intro p x hx
          exact (hres p x hx).1
      · intro d hd
        rw [← hout] at hd
        obtain ⟨pid, hpid, hf⟩ := List.mem_filterMap.mp hd
        have hx := hres pid d hf
        refine ⟨hx.2, pid, hx.1, ?_⟩
        rw [relCount_pos_iff]
        have hpid' : pid ∈ rel.map Prod.fst := (List.mem_insertionSort _).mp hpid
        rw [hkeys] at hpid'
        have := (encounterOrder_mem cs [] pid).mp hpid'
        simpa using this
      · intro p h1 h2
        obtain ⟨d, hd⟩ := gpdLoop_dmap_find st.documents cs [] [] rel dmap hg p h1 h2
        refine ⟨d, ?_, (hres p d hd).1⟩
        rw [← hout]
        refine List.mem_filterMap.mpr ⟨p, ?_, hd⟩
        refine (List.mem_insertionSort _).mpr ?_
        rw [hkeys]
        exact (encounterOrder_mem cs [] p).mpr (Or.inr h1)
      · intro p q hsub hle hp hq
        have hsub' : [p, q].Sublist (rel.map Prod.fst) := by
          rw [hkeys]; exact hsub
        have hrpq : (fun a b : Nat =>
            (dictGet? rel b).getD 0 ≤ (dictGet? rel a).getD 0) p q := by
          show (dictGet? rel q).getD 0 ≤ (dictGet? rel p).getD 0
          rw [hrelcount p, hrelcount q]
          exact hle
        have hsortsub := @List.pair_sublist_insertionSort Nat
          (fun a b : Nat => (dictGet? rel b).getD 0 ≤ (dictGet? rel a).getD 0)
          (fun a b => inferInstance) p q (rel.map Prod.fst) hrpq hsub'
        have hpref : ∃ ch ∈ cs, (ch : Doc).parent_id = some p := by
          have hmem : p ∈ encounterOrder cs [] := hsub.subset (by simp)
          simpa using (encounterOrder_mem cs [] p).mp hmem
        have hqref : ∃ ch ∈ cs, (ch : Doc).parent_id = some q := by
          have hmem : q ∈ encounterOrder cs [] := hsub.subset (by simp)
          simpa using (encounterOrder_mem cs [] q).mp hmem
        obtain ⟨dp, hdp⟩ := gpdLoop_dmap_find st.documents cs [] [] rel dmap hg p hpref hp
        obtain ⟨dq, hdq⟩ := gpdLoop_dmap_find st.documents cs [] [] rel dmap hg q hqref hq
        refine ⟨dp, dq, (hres p dp hdp).1, (hres q dq hdq).1, ?_⟩
        rw [← hout]
        have hfm := hsortsub.filterMap (fun pid => dictGet? dmap pid)
        simpa [List.filterMap_cons, hdp, hdq] using hfm
  · exact gpd_example



/-- Witness for C5: the general theorem applied to the concrete example
resolution. -/
theorem get_parent_documents_ranking_witness :
    get_parent_document gpdState [childC1, childC2, childC3] =
      Except.ok ([parentP1, parentP2], gpdState) ∧
    [parentP1, parentP2].Pairwise
      (fun d e => docRelCount [childC1, childC2, childC3] e ≤
        docRelCount [childC1, childC2, childC3] d) ∧
    ([parentP1, parentP2].map Doc.parent_id).Nodup :=
  ⟨rfl,
    (get_parent_documents_ranking.1 gpdState [childC1, childC2, childC3]
      [parentP1, parentP2] gpdState rfl).1,
    (get_parent_documents_ranking.1 gpdState [childC1, childC2, childC3]
      [parentP1, parentP2] gpdState rfl).2.1⟩

/-- Witness for C9 on the concrete resolution example. -/
theorem get_parent_document_readonly_witness :
    get_parent_document gpdState [childC1, childC2, childC3] =
      Except.ok ([parentP1, parentP2], gpdState) ∧
    (gpdState.documents = gpdState.documents ∧ gpdState.chunks = gpdState.chunks ∧
      gpdState.parent_child_map = gpdState.parent_child_map ∧
      gpdState.data_path = gpdState.data_path) :=
  ⟨rfl, get_parent_document_readonly gpdState [childC1, childC2, childC3]
    [parentP1, parentP2] gpdState rfl⟩

end RagRecipe
